import Mathlib

/-!
# Verification of the Metashape TLS replacement helper (`replace_tls.py`)

A shallow embedding of the script's data model and operations, followed by
theorems about the claims of its specification.

Conventions of the embedding:
* Python strings are `List Char`; `str.lower` is `List.map Char.toLower`,
  `str.strip` drops ASCII whitespace on both ends.
* Metashape 4x4 matrices are `Matrix (Fin 4) (Fin 4) ℚ` (exact arithmetic in
  place of IEEE doubles; the spec's "within floating tolerance" statements are
  settled exactly).
* Python object mutation is explicit state passing; object identity of cameras
  and masks is an `id`/`oid` field; the Python `while` loop of
  `_make_unique_label` is a `Nat.find` over the proved-nonempty set of fresh
  candidate indices.
-/

/-- ASCII whitespace recognised by Python's `str.strip()`. -/
def pyWhitespace (c : Char) : Bool :=
  c = ' ' || c = '\t' || c = '\n' || c = '\r' || c = '\x0b' || c = '\x0c'

/-- Python `s.strip()`: drop whitespace from both ends. -/
def pyStrip (s : List Char) : List Char :=
  ((s.dropWhile pyWhitespace).reverse.dropWhile pyWhitespace).reverse

/-- Python `s.lower()` (ASCII case folding, as `Char.toLower`). -/
def lowerL (s : List Char) : List Char := s.map Char.toLower

/-- `_norm_name`: normalize a name for robust matching (trim + lower). -/
def norm_name (s : List Char) : List Char := lowerL (pyStrip s)

/-- Decimal digit character: `digitChar d` is the character for digit `d`. -/
def digitChar (d : Nat) : Char := Char.ofNat (48 + d)

/-- Fueled decimal rendering of a natural number (most significant first). -/
def natDigitsAux : Nat → Nat → List Char
  | 0, _ => []
  | fuel + 1, n =>
    if n < 10 then [digitChar n]
    else natDigitsAux fuel (n / 10) ++ [digitChar (n % 10)]

/-- Decimal rendering of a natural number, e.g. `natDigits 37 = ['3','7']`. -/
def natDigits (n : Nat) : List Char := natDigitsAux (n + 1) n

/-- Python's `f"{i:02d}"`: decimal, zero-padded to at least two digits. -/
def pad2 (i : Nat) : List Char :=
  if i < 10 then '0' :: natDigits i else natDigits i

/-- The candidate label tried by `_make_unique_label` at loop index `i`:
`f"{desired}_{i:02d}"`. -/
def candidateLabel (desired : List Char) (i : Nat) : List Char :=
  desired ++ '_' :: pad2 i

/-- Numeric value of a digit string (inverse of `natDigits`). -/
def digitsVal (l : List Char) : Nat :=
  l.foldl (fun a c => 10 * a + (c.toNat - 48)) 0

theorem digitChar_toNat {d : Nat} (h : d < 10) : (digitChar d).toNat = 48 + d := by
  interval_cases d <;> decide

theorem digitsVal_append_digit (l : List Char) (c : Char) :
    digitsVal (l ++ [c]) = 10 * digitsVal l + (c.toNat - 48) := by
  unfold digitsVal
  rw [List.foldl_append]
  rfl

theorem digitsVal_natDigitsAux : ∀ fuel n, n < fuel →
    digitsVal (natDigitsAux fuel n) = n := by
  intro fuel
  induction fuel with
  | zero => intro n h; omega
  | succ fuel ih =>
    intro n h
    unfold natDigitsAux
    by_cases h10 : n < 10
    · rw [if_pos h10]
      unfold digitsVal
      simp [List.foldl, digitChar_toNat h10]
    · rw [if_neg h10]
      have hdiv : n / 10 < fuel := by omega
      rw [digitsVal_append_digit, ih _ hdiv, digitChar_toNat (Nat.mod_lt n (by omega))]
      omega

theorem digitsVal_natDigits (n : Nat) : digitsVal (natDigits n) = n :=
  digitsVal_natDigitsAux (n + 1) n (Nat.lt_succ_self n)

theorem digitsVal_pad2 (i : Nat) : digitsVal (pad2 i) = i := by
  unfold pad2
  by_cases h : i < 10
  · rw [if_pos h]
    have : digitsVal ('0' :: natDigits i) = digitsVal (natDigits i) := by
      unfold digitsVal
      simp [List.foldl]
    rw [this, digitsVal_natDigits]
  · rw [if_neg h, digitsVal_natDigits]

theorem pad2_injective : Function.Injective pad2 := by
  intro i j h
  have := digitsVal_pad2 i
  rw [h, digitsVal_pad2] at this
  omega

theorem mem_natDigitsAux_isDigit : ∀ fuel n c, c ∈ natDigitsAux fuel n →
    ∃ d, d < 10 ∧ c = digitChar d := by
  intro fuel
  induction fuel with
  | zero => intro n c h; simp [natDigitsAux] at h
  | succ fuel ih =>
    intro n c h
    unfold natDigitsAux at h
    by_cases h10 : n < 10
    · rw [if_pos h10] at h
      simp at h
      exact ⟨n, h10, h⟩
    · rw [if_neg h10] at h
      rcases List.mem_append.mp h with h1 | h2
      · exact ih _ _ h1
      · simp at h2
        exact ⟨n % 10, Nat.mod_lt n (by omega), h2⟩

theorem toLower_digitChar {d : Nat} (h : d < 10) :
    Char.toLower (digitChar d) = digitChar d := by
  interval_cases d <;> decide

theorem lowerL_pad2 (i : Nat) : lowerL (pad2 i) = pad2 i := by
  unfold lowerL
  have key : ∀ c ∈ pad2 i, Char.toLower c = c := by
    intro c hc
    have hmem : ∃ d, d < 10 ∧ c = digitChar d := by
      unfold pad2 at hc
      by_cases h : i < 10
      · rw [if_pos h] at hc
        rcases List.mem_cons.mp hc with h0 | h1
        · exact ⟨0, by omega, by rw [h0]; decide⟩
        · exact mem_natDigitsAux_isDigit _ _ _ h1
      · rw [if_neg h] at hc
        exact mem_natDigitsAux_isDigit _ _ _ hc
    obtain ⟨d, hd, rfl⟩ := hmem
    exact toLower_digitChar hd
  calc (pad2 i).map Char.toLower = (pad2 i).map id := List.map_congr_left key
    _ = pad2 i := List.map_id (pad2 i)

theorem lowerL_candidateLabel (d : List Char) (i : Nat) :
    lowerL (candidateLabel d i) = lowerL d ++ '_' :: pad2 i := by
  unfold candidateLabel lowerL
  rw [List.map_append, List.map_cons]
  have h1 : Char.toLower '_' = '_' := by decide
  rw [h1]
  have h2 := lowerL_pad2 i
  unfold lowerL at h2
  rw [h2]

theorem lowerL_candidateLabel_injective (d : List Char) :
    Function.Injective (fun i => lowerL (candidateLabel d i)) := by
  intro i j h
  simp only [lowerL_candidateLabel] at h
  have h2 := List.append_cancel_left h
  exact pad2_injective (List.cons.inj h2).2

theorem exists_fresh_candidate (d : List Char) (E : Finset (List Char)) :
    ∃ i, lowerL (candidateLabel d (2 + i)) ∉ E := by
  by_contra hall
  push_neg at hall
  have hinj : Function.Injective (fun i : ℕ => lowerL (candidateLabel d (2 + i))) := by
    intro i j h
    have := lowerL_candidateLabel_injective d h
    omega
  obtain ⟨x, y, hxy, hfeq⟩ :=
    Finite.exists_ne_map_eq_of_infinite
      (fun i : ℕ => (⟨lowerL (candidateLabel d (2 + i)), hall i⟩ : {x // x ∈ E}))
  exact hxy (hinj (congrArg Subtype.val hfeq))

/-- `_make_unique_label`: ensure the label is unique inside the chunk by
appending `_02`, `_03`, ... (the Python `while True` loop is realised as the
least fresh candidate index, which `exists_fresh_candidate` proves exists). -/
def make_unique_label (desired : List Char) (existing_lower : Finset (List Char)) :
    List Char :=
  if lowerL desired ∈ existing_lower then
    candidateLabel desired (2 + Nat.find (exists_fresh_candidate desired existing_lower))
  else desired

theorem make_unique_label_no_collision {d : List Char} {E : Finset (List Char)}
    (h : lowerL d ∉ E) : make_unique_label d E = d := by
  unfold make_unique_label
  rw [if_neg h]

theorem make_unique_label_collision {d : List Char} {E : Finset (List Char)}
    (h : lowerL d ∈ E) (n : Nat) (h2 : 2 ≤ n)
    (hfresh : lowerL (candidateLabel d n) ∉ E)
    (hbusy : ∀ j, 2 ≤ j → j < n → lowerL (candidateLabel d j) ∈ E) :
    make_unique_label d E = candidateLabel d n := by
  unfold make_unique_label
  rw [if_pos h]
  congr 1
  have : Nat.find (exists_fresh_candidate d E) = n - 2 := by
    rw [Nat.find_eq_iff]
    constructor
    · have : 2 + (n - 2) = n := by omega
      rw [this]; exact hfresh
    · intro m hm hfree
      exact hfree (hbusy (2 + m) (by omega) (by omega))
  omega

/-! ## Transforms and point clouds -/

/-- Metashape 4x4 matrices, with exact rational entries. -/
abbrev Mat4 := Matrix (Fin 4) (Fin 4) ℚ

/-- `Metashape.Matrix.inv`: the standard matrix inverse, `det⁻¹ • adjugate`
(meaningful whenever the determinant is nonzero). -/
def inv4 (M : Mat4) : Mat4 := (M.det)⁻¹ • M.adjugate

theorem inv4_mul_self (M : Mat4) (h : M.det ≠ 0) : inv4 M * M = 1 := by
  unfold inv4
  rw [Matrix.smul_mul, Matrix.adjugate_mul, smul_smul, inv_mul_cancel₀ h, one_smul]

theorem mul_inv4_self (M : Mat4) (h : M.det ≠ 0) : M * inv4 M = 1 := by
  unfold inv4
  rw [Matrix.mul_smul, Matrix.mul_adjugate, smul_smul, inv_mul_cancel₀ h, one_smul]

theorem det_ne_zero_of_mul_eq_one {A B : Mat4} (h : A * B = 1) : A.det ≠ 0 := by
  intro h0
  have hdet := congrArg Matrix.det h
  rw [Matrix.det_mul, h0, zero_mul, Matrix.det_one] at hdet
  exact zero_ne_one hdet

theorem inv4_eq {A B : Mat4} (h : A * B = 1) : inv4 A = B := by
  have hd := det_ne_zero_of_mul_eq_one h
  calc inv4 A = inv4 A * (A * B) := by rw [h, mul_one]
    _ = inv4 A * A * B := by rw [mul_assoc]
    _ = B := by rw [inv4_mul_self A hd, one_mul]

/-- `delta = T_src_eff * T_new0_eff.inv()` (line 395): the Pose Delta Solver,
`computeDelta(referenceEffective, importedEffectiveRaw)`. -/
def computeDelta (referenceEffective importedEffectiveRaw : Mat4) : Mat4 :=
  referenceEffective * inv4 importedEffectiveRaw

/-- A Metashape point cloud group: exposes an optional transform. -/
structure PcGroup where
  transform : Option Mat4

/-- A Metashape point cloud asset (TLS scan). `group` is the optional owning
`PointCloudGroup`; `transform` is the local transform (`None` possible). -/
structure PointCloud where
  key : Nat
  label : List Char
  transform : Option Mat4
  group : Option PcGroup
  is_laser_scan : Bool
  enabled : Bool

/-- `_effective_T`: effective transform for pose comparisons,
`group.transform * pc.transform` when a group transform exists, else
`pc.transform`; `None` when the point cloud has no transform. A pure
function: no side effects, no exception, absence is the only failure signal. -/
def effective_T (pc : PointCloud) : Option Mat4 :=
  match pc.transform with
  | none => none
  | some T =>
    match pc.group with
    | none => some T
    | some g =>
      match g.transform with
      | none => some T
      | some gT => some (gT * T)

/-- `_apply_delta_to_pc_transform`: `pc.transform := delta * pc.transform`
(multiplicative application; a point cloud without a transform is left
untouched). -/
def apply_delta_to_pc_transform (pc : PointCloud) (delta : Mat4) : PointCloud :=
  match pc.transform with
  | none => pc
  | some T => { pc with transform := some (delta * T) }

/-! ## Cameras, pairing and masks

Python object identity is modelled with an `id` field for cameras and an
`oid` field for masks; in-place mutation is explicit state passing over the
chunk's camera list plus a fresh-object counter. -/

/-- A Metashape mask: opaque pixel `content` plus object identity `oid`. -/
structure Mask where
  oid : Nat
  content : Nat
deriving DecidableEq

/-- A Metashape camera. `point_cloud` and `dense_cloud_id` are the two
best-effort link fields probed by `_camera_belongs_to_pointcloud`, recorded
as the key of the linked point cloud when the field exists. -/
structure Camera where
  id : Nat
  label : List Char
  key : Nat
  mask : Option Mask
  point_cloud : Option Nat
  dense_cloud_id : Option Nat
deriving DecidableEq

/-- `_camera_belongs_to_pointcloud`: `cam.point_cloud == pc` or, failing
that, `cam.dense_cloud_id == pc.key` (point cloud object equality is key
equality; keys identify point clouds). -/
def camera_belongs_to_pointcloud (cam : Camera) (pc : PointCloud) : Bool :=
  cam.point_cloud == some pc.key || cam.dense_cloud_id == some pc.key

/-- The composite sort key `((label or ""), key)` of `_attached_cameras`. -/
def camKey (c : Camera) : List Char × Nat := (c.label, c.key)

/-- The Python tuple order on `(label, key)` used by `cams.sort`. -/
def camLe (a b : Camera) : Prop :=
  a.label < b.label ∨ (a.label = b.label ∧ a.key ≤ b.key)

instance : DecidableRel camLe := fun a b => by unfold camLe; infer_instance

instance : IsTotal Camera camLe := by
  constructor
  intro a b
  rcases lt_trichotomy a.label b.label with h | h | h
  · exact Or.inl (Or.inl h)
  · rcases Nat.le_total a.key b.key with hk | hk
    · exact Or.inl (Or.inr ⟨h, hk⟩)
    · exact Or.inr (Or.inr ⟨h.symm, hk⟩)
  · exact Or.inr (Or.inl h)

instance : IsTrans Camera camLe := by
  constructor
  rintro a b c (h1 | ⟨e1, k1⟩) (h2 | ⟨e2, k2⟩)
  · exact Or.inl (lt_trans h1 h2)
  · exact Or.inl (e2 ▸ h1)
  · exact Or.inl (e1 ▸ h2)
  · exact Or.inr ⟨e1.trans e2, le_trans k1 k2⟩

theorem camLe_antisymm_key {a b : Camera} (h1 : camLe a b) (h2 : camLe b a) :
    camKey a = camKey b := by
  unfold camKey
  rcases h1 with hl | ⟨he, hk⟩ <;> rcases h2 with hl' | ⟨he', hk'⟩
  · exact absurd hl' (lt_asymm hl)
  · rw [he'] at hl; exact absurd hl (lt_irrefl _)
  · rw [he] at hl'; exact absurd hl' (lt_irrefl _)
  · rw [he]
    have : a.key = b.key := Nat.le_antisymm hk hk'
    rw [this]

/-- `_attached_cameras`: cameras associated with the given TLS point cloud,
stably sorted by `(label, key)` for deterministic pairing (Python's stable
`list.sort`, realised as insertion sort). -/
def attached_cameras (cams : List Camera) (pc : PointCloud) : List Camera :=
  List.insertionSort camLe
    (cams.filter (fun c => camera_belongs_to_pointcloud c pc))

/-- Chunk camera state: the cameras plus a fresh-object-identity counter used
when the host allocates a new mask object (`mask.copy()`). -/
structure MState where
  cams : List Camera
  nextOid : Nat

/-- `_copy_mask` through its primary path `mask_obj.copy()`: a new mask
object (fresh identity) with the same content. -/
def copy_mask (m : Mask) (fresh : Nat) : Mask := { oid := fresh, content := m.content }

/-- In-place `cam.mask = m` for the camera object with identity `cid`. -/
def setMaskById (cams : List Camera) (cid : Nat) (m : Option Mask) : List Camera :=
  cams.map (fun c => if c.id = cid then { c with mask := m } else c)

/-- Read `cam.mask` of the camera object with identity `cid`. -/
def getMaskById (cams : List Camera) (cid : Nat) : Option Mask :=
  match cams.find? (fun c => c.id == cid) with
  | none => none
  | some c => c.mask

/-- One iteration of the copy loop of `_transfer_masks_from_src_to_new`:
read the source camera's current mask; absent means skip, present means
assign a deep copy to the paired new camera. -/
def copyStep (st : MState) (pair : Camera × Camera) : MState :=
  match getMaskById st.cams pair.1.id with
  | none => st
  | some m =>
    { cams := setMaskById st.cams pair.2.id (some (copy_mask m st.nextOid)),
      nextOid := st.nextOid + 1 }

/-- `_transfer_masks_from_src_to_new`: clear the masks of all NEW-station
cameras first, return early if either side has no cameras, else copy masks
pairwise over the index-aligned zip (truncated to the shorter side). -/
def transfer_masks_from_src_to_new (st : MState) (src_pc new_pc : PointCloud) :
    MState :=
  let src_cams := attached_cameras st.cams src_pc
  let new_cams := attached_cameras st.cams new_pc
  let cleared := new_cams.foldl (fun acc c => setMaskById acc c.id none) st.cams
  let st1 : MState := { cams := cleared, nextOid := st.nextOid }
  if src_cams.isEmpty || new_cams.isEmpty then st1
  else (src_cams.zip new_cams).foldl copyStep st1

/-! ### Identity-preserving update lemmas -/

theorem find?_map_id_preserving (f : Camera → Camera)
    (hf : ∀ c, (f c).id = c.id) (cams : List Camera) (x : Nat) :
    (cams.map f).find? (fun c => c.id == x) =
      (cams.find? (fun c => c.id == x)).map f := by
  induction cams with
  | nil => rfl
  | cons a l ih =>
    simp only [List.map_cons, List.find?_cons]
    rw [hf a]
    cases h : (a.id == x) with
    | true => rfl
    | false => exact ih

theorem setMaskById_id_preserving (cid : Nat) (m : Option Mask) (c : Camera) :
    (if c.id = cid then { c with mask := m } else c).id = c.id := by
  by_cases h : c.id = cid <;> simp [h]

theorem map_id_of_id_preserving (f : Camera → Camera)
    (hf : ∀ c, (f c).id = c.id) (cams : List Camera) :
    (cams.map f).map Camera.id = cams.map Camera.id := by
  rw [List.map_map]
  exact List.map_congr_left (fun c _ => hf c)

theorem getMaskById_setMaskById_ne (cams : List Camera) (cid x : Nat)
    (m : Option Mask) (h : x ≠ cid) :
    getMaskById (setMaskById cams cid m) x = getMaskById cams x := by
  unfold getMaskById setMaskById
  rw [find?_map_id_preserving _ (setMaskById_id_preserving cid m) cams x]
  cases hf : cams.find? (fun c => c.id == x) with
  | none => rfl
  | some c =>
    have hc : c.id = x := by simpa using List.find?_some hf
    have heq : (if c.id = cid then { c with mask := m } else c) = c := by
      rw [if_neg (by rw [hc]; exact h)]
    simp [heq]

theorem find?_id_mem (cams : List Camera) (x : Nat)
    (h : x ∈ cams.map Camera.id) :
    ∃ c, cams.find? (fun c => c.id == x) = some c ∧ c.id = x := by
  obtain ⟨c0, hc0, hid⟩ := List.mem_map.mp h
  have hsome : (cams.find? (fun c => c.id == x)).isSome := by
    rw [List.find?_isSome]
    exact ⟨c0, hc0, by simp [hid]⟩
  obtain ⟨c, hc⟩ := Option.isSome_iff_exists.mp hsome
  refine ⟨c, hc, ?_⟩
  simpa using List.find?_some hc

theorem getMaskById_setMaskById_self (cams : List Camera) (cid : Nat)
    (m : Option Mask) (h : cid ∈ cams.map Camera.id) :
    getMaskById (setMaskById cams cid m) cid = m := by
  unfold getMaskById setMaskById
  rw [find?_map_id_preserving _ (setMaskById_id_preserving cid m) cams cid]
  obtain ⟨c, hc, hid⟩ := find?_id_mem cams cid h
  rw [hc]
  have heq : (if c.id = cid then { c with mask := m } else c) = { c with mask := m } := by
    rw [if_pos hid]
  simp [heq]

/-! ### The clearing loop -/

/-- The single-camera update applied by the closed form of the clearing loop. -/
def clearIf (ids : List Nat) (c : Camera) : Camera :=
  if c.id ∈ ids then { c with mask := none } else c

theorem clearIf_id_preserving (ids : List Nat) (c : Camera) :
    (clearIf ids c).id = c.id := by
  unfold clearIf
  by_cases h : c.id ∈ ids <;> simp [h]

/-- Closed form of the clearing loop: a single pass over the chunk's cameras
that erases the mask of every camera whose identity occurs in `l`. -/
theorem clearFold_eq (l : List Camera) (cams : List Camera) :
    l.foldl (fun acc c => setMaskById acc c.id none) cams =
      cams.map (clearIf (l.map Camera.id)) := by
  induction l generalizing cams with
  | nil =>
    simp only [List.foldl_nil, List.map_nil]
    have : ∀ c ∈ cams, clearIf [] c = c := by
      intro c _
      rfl
    rw [List.map_congr_left this, List.map_id']
  | cons a l ih =>
    simp only [List.foldl_cons]
    rw [ih]
    unfold setMaskById
    rw [List.map_map]
    apply List.map_congr_left
    intro c _
    simp only [Function.comp_apply, List.map_cons]
    unfold clearIf
    by_cases h : c.id = a.id <;> by_cases h2 : c.id ∈ l.map Camera.id <;>
      simp [h, h2]

theorem getMaskById_clearFold_mem (l cams : List Camera) (x : Nat)
    (hx : x ∈ cams.map Camera.id) (hl : x ∈ l.map Camera.id) :
    getMaskById (l.foldl (fun acc c => setMaskById acc c.id none) cams) x = none := by
  rw [clearFold_eq]
  unfold getMaskById
  rw [find?_map_id_preserving _ (clearIf_id_preserving _) cams x]
  obtain ⟨c, hc, hid⟩ := find?_id_mem cams x hx
  rw [hc]
  have : clearIf (l.map Camera.id) c = { c with mask := none } := by
    unfold clearIf
    rw [if_pos (hid ▸ hl)]
  simp [this]

theorem getMaskById_clearFold_not_mem (l cams : List Camera) (x : Nat)
    (hl : x ∉ l.map Camera.id) :
    getMaskById (l.foldl (fun acc c => setMaskById acc c.id none) cams) x =
      getMaskById cams x := by
  rw [clearFold_eq]
  unfold getMaskById
  rw [find?_map_id_preserving _ (clearIf_id_preserving _) cams x]
  cases hf : cams.find? (fun c => c.id == x) with
  | none => rfl
  | some c =>
    have hcx : c.id = x := by simpa using List.find?_some hf
    have : clearIf (l.map Camera.id) c = c := by
      unfold clearIf
      rw [if_neg (hcx ▸ hl)]
    simp [this]

theorem clearFold_ids (l cams : List Camera) :
    (l.foldl (fun acc c => setMaskById acc c.id none) cams).map Camera.id =
      cams.map Camera.id := by
  rw [clearFold_eq]
  exact map_id_of_id_preserving _ (clearIf_id_preserving _) cams

/-! ### The copy loop -/

theorem copyStep_ids (st : MState) (p : Camera × Camera) :
    (copyStep st p).cams.map Camera.id = st.cams.map Camera.id := by
  unfold copyStep
  cases getMaskById st.cams p.1.id with
  | none => rfl
  | some m => exact map_id_of_id_preserving _ (setMaskById_id_preserving _ _) _

theorem copyStep_nextOid (st : MState) (p : Camera × Camera) :
    st.nextOid ≤ (copyStep st p).nextOid := by
  unfold copyStep
  cases getMaskById st.cams p.1.id with
  | none => exact le_refl _
  | some m => exact Nat.le_succ _

theorem copyFold_ids (pairs : List (Camera × Camera)) (st : MState) :
    (pairs.foldl copyStep st).cams.map Camera.id = st.cams.map Camera.id := by
  induction pairs generalizing st with
  | nil => rfl
  | cons p l ih => rw [List.foldl_cons, ih, copyStep_ids]

theorem copyFold_nextOid (pairs : List (Camera × Camera)) (st : MState) :
    st.nextOid ≤ (pairs.foldl copyStep st).nextOid := by
  induction pairs generalizing st with
  | nil => exact le_refl _
  | cons p l ih => exact le_trans (copyStep_nextOid st p) (ih _)

theorem copyFold_not_written (pairs : List (Camera × Camera)) (st : MState)
    (x : Nat) (hx : x ∉ pairs.map (fun p => p.2.id)) :
    getMaskById (pairs.foldl copyStep st).cams x = getMaskById st.cams x := by
  induction pairs generalizing st with
  | nil => rfl
  | cons p l ih =>
    simp only [List.map_cons, List.mem_cons, not_or] at hx
    rw [List.foldl_cons, ih _ hx.2]
    unfold copyStep
    cases getMaskById st.cams p.1.id with
    | none => rfl
    | some m => exact getMaskById_setMaskById_ne _ _ _ _ hx.1

/-- Behaviour of the copy loop on each of its pairs, provided the written
identities are pairwise distinct, reads never alias writes, and every written
identity denotes a camera present in the chunk. The copied mask carries the
source's content under a fresh object identity. -/
theorem copyFold_pair_spec (pairs : List (Camera × Camera)) (st : MState)
    (hw : (pairs.map (fun p => p.2.id)).Nodup)
    (hrw : ∀ p ∈ pairs, ∀ q ∈ pairs, p.1.id ≠ q.2.id)
    (hids : ∀ p ∈ pairs, p.2.id ∈ st.cams.map Camera.id) :
    ∀ p ∈ pairs,
      (∀ m, getMaskById st.cams p.1.id = some m →
        ∃ k, st.nextOid ≤ k ∧
          getMaskById (pairs.foldl copyStep st).cams p.2.id =
            some (copy_mask m k)) ∧
      (getMaskById st.cams p.1.id = none →
        getMaskById (pairs.foldl copyStep st).cams p.2.id =
          getMaskById st.cams p.2.id) := by
  induction pairs generalizing st with
  | nil => intro p hp; cases hp
  | cons p0 l ih =>
    have hw' : (l.map (fun p => p.2.id)).Nodup := by
      simp only [List.map_cons, List.nodup_cons] at hw
      exact hw.2
    have hw0 : p0.2.id ∉ l.map (fun p => p.2.id) := by
      simp only [List.map_cons, List.nodup_cons] at hw
      exact hw.1
    intro p hp
    rcases List.mem_cons.mp hp with rfl | hpl
    · -- the head pair
      rw [List.foldl_cons]
      constructor
      · intro m hm
        refine ⟨st.nextOid, le_refl _, ?_⟩
        rw [copyFold_not_written l _ _ hw0]
        unfold copyStep
        rw [hm]
        exact getMaskById_setMaskById_self _ _ _ (hids p (List.mem_cons_self _ _))
      · intro hm
        rw [copyFold_not_written l _ _ hw0]
        unfold copyStep
        rw [hm]
    · -- a pair of the tail
      rw [List.foldl_cons]
      have hne_read : p.1.id ≠ p0.2.id :=
        hrw p hp p0 (List.mem_cons_self _ _)
      have hread : getMaskById (copyStep st p0).cams p.1.id =
          getMaskById st.cams p.1.id := by
        unfold copyStep
        cases getMaskById st.cams p0.1.id with
        | none => rfl
        | some m => exact getMaskById_setMaskById_ne _ _ _ _ hne_read
      have hwrite_pres : getMaskById (copyStep st p0).cams p.2.id =
          getMaskById st.cams p.2.id := by
        unfold copyStep
        cases getMaskById st.cams p0.1.id with
        | none => rfl
        | some m =>
          refine getMaskById_setMaskById_ne _ _ _ _ ?_
          intro hcontra
          apply hw0
          rw [← hcontra]
          exact List.mem_map.mpr ⟨p, hpl, rfl⟩
      have ihp := ih (copyStep st p0)
        hw'
        (fun a ha b hb => hrw a (List.mem_cons_of_mem _ ha) b (List.mem_cons_of_mem _ hb))
        (fun a ha => by
          rw [copyStep_ids]
          exact hids a (List.mem_cons_of_mem _ ha))
        p hpl
      constructor
      · intro m hm
        obtain ⟨k, hk, hres⟩ := ihp.1 m (by rw [hread]; exact hm)
        exact ⟨k, le_trans (copyStep_nextOid st p0) hk, hres⟩
      · intro hm
        rw [ihp.2 (by rw [hread]; exact hm), hwrite_pres]

/-! ### Determinism of the pairing order -/

theorem mem_attached_cameras {cams : List Camera} {pc : PointCloud} {c : Camera} :
    c ∈ attached_cameras cams pc ↔
      c ∈ cams ∧ camera_belongs_to_pointcloud c pc = true := by
  unfold attached_cameras
  rw [(List.perm_insertionSort camLe _).mem_iff, List.mem_filter]

theorem attached_cameras_perm_filter (cams : List Camera) (pc : PointCloud) :
    (attached_cameras cams pc).Perm
      (cams.filter (fun c => camera_belongs_to_pointcloud c pc)) :=
  List.perm_insertionSort camLe _

theorem attached_cameras_sorted (cams : List Camera) (pc : PointCloud) :
    (attached_cameras cams pc).Sorted camLe :=
  List.sorted_insertionSort camLe _

/-- Two sorted camera lists that are permutations of one another and whose
`(label, key)` sort keys are pairwise distinct are equal. -/
theorem sorted_perm_nodup_key_eq {l1 l2 : List Camera}
    (hp : l1.Perm l2) (hs1 : l1.Sorted camLe) (hs2 : l2.Sorted camLe)
    (hn : (l1.map camKey).Nodup) : l1 = l2 := by
  have hn2 : (l2.map camKey).Nodup := ((hp.map camKey).nodup_iff).mp hn
  let r : Camera → Camera → Prop := fun a b => camLe a b ∧ camKey a ≠ camKey b
  have hstrict : ∀ {l : List Camera}, l.Sorted camLe → (l.map camKey).Nodup →
      l.Pairwise r := by
    intro l hs hnd
    have hne : l.Pairwise (fun a b => camKey a ≠ camKey b) :=
      List.pairwise_map.mp hnd
    exact hs.and hne
  haveI : IsAntisymm Camera r := by
    constructor
    intro a b hab hba
    exact absurd (camLe_antisymm_key hab.1 hba.1) hab.2
  exact List.eq_of_perm_of_sorted hp (hstrict hs1 hn) (hstrict hs2 hn2)

/-- `_attached_cameras` is a pure function of the camera collection's
content: permuting the chunk's camera list does not change its result,
provided the associated cameras carry pairwise distinct `(label, key)` keys. -/
theorem attached_cameras_perm_invariant {cams cams' : List Camera}
    (pc : PointCloud) (hp : cams.Perm cams')
    (hn : ((cams.filter (fun c => camera_belongs_to_pointcloud c pc)).map camKey).Nodup) :
    attached_cameras cams pc = attached_cameras cams' pc := by
  have hpf : (cams.filter (fun c => camera_belongs_to_pointcloud c pc)).Perm
      (cams'.filter (fun c => camera_belongs_to_pointcloud c pc)) :=
    hp.filter _
  have h1 := attached_cameras_perm_filter cams pc
  have h2 := attached_cameras_perm_filter cams' pc
  exact sorted_perm_nodup_key_eq
    (h1.trans (hpf.trans h2.symm))
    (attached_cameras_sorted cams pc)
    (attached_cameras_sorted cams' pc)
    (((h1.map camKey).nodup_iff).mpr hn)

theorem zip_map_fst_sublist {α β : Type} (l1 : List α) (l2 : List β) :
    ((l1.zip l2).map Prod.fst).Sublist l1 := by
  induction l1 generalizing l2 with
  | nil => simp
  | cons a l ih =>
    cases l2 with
    | nil => simp
    | cons b l2 =>
      simp only [List.zip_cons_cons, List.map_cons]
      exact List.Sublist.cons₂ a (ih l2)

theorem zip_map_snd_sublist {α β : Type} (l1 : List α) (l2 : List β) :
    ((l1.zip l2).map Prod.snd).Sublist l2 := by
  induction l1 generalizing l2 with
  | nil => simp
  | cons a l ih =>
    cases l2 with
    | nil => simp
    | cons b l2 =>
      simp only [List.zip_cons_cons, List.map_cons]
      exact List.Sublist.cons₂ b (ih l2)

/-! ## The import pipeline driver (`importar_e57_y_aplicar_delta_y_mascaras`)

Exceptions are modelled as a short-circuiting `Option (List Char)` message
(`some msg` = a raised, uncaught error aborting the run with the state as it
stood); early `return`s are normal terminal statuses. Host collaborators
(document presence, folder dialog, format enum lookup, the import primitive)
are an `Env`. -/

/-- String literal helper: a Python string as a `List Char`. -/
def strL (s : String) : List Char := s.data

/-- The host environment consumed by the pipeline. `importResult f` is the
list of point cloud assets `chunk.importPointCloud` appends for file `f`. -/
structure Env where
  hasDocument : Bool
  folder : Option (List (List Char))
  formatAvailable : Bool
  importResult : List Char → List PointCloud

/-- Mutable working state: the chunk's point clouds and cameras, the working
set `existing_labels_lower`, and the fresh-object counter. -/
structure RState where
  pcs : List PointCloud
  cams : List Camera
  labels : Finset (List Char)
  nextOid : Nat

inductive RunStatus where
  | raised (msg : List Char)
  | cancelled
  | noFiles
  | noScans
  | completed
deriving DecidableEq

structure RunResult where
  status : RunStatus
  state : RState

/-- `f.lower().endswith(".e57")`. -/
def isE57Name (f : List Char) : Bool :=
  (strL ".e57").isSuffixOf (lowerL f)

/-- `os.path.splitext(fname)[0]` for a name ending in `.e57`: everything
before the final `.e57`, except that a name whose part before the suffix is
empty or all dots (such as `.e57`) has no extension in Python's rule and is
returned whole. -/
def splitextBase (f : List Char) : List Char :=
  let pre := f.take (f.length - 4)
  if pre.all (fun c => c = '.') then f else pre

/-- `loaded_by_name` (lines 302-310): map normalized label to scan, skipping
empty keys; on duplicates the first one registered wins (warning only). -/
def buildLoadedByName : List PointCloud → List (List Char × PointCloud) →
    List (List Char × PointCloud)
  | [], acc => acc
  | pc :: rest, acc =>
    let k := norm_name pc.label
    if k = [] then buildLoadedByName rest acc
    else if (acc.map Prod.fst).contains k then buildLoadedByName rest acc
    else buildLoadedByName rest (acc ++ [(k, pc)])

def lookupName (m : List (List Char × PointCloud)) (k : List Char) :
    Option PointCloud :=
  (m.find? (fun p => decide (p.1 = k))).map Prod.snd

/-- `existing_labels_lower` (line 312): normalized labels of all point
clouds with a non-empty label. -/
def initLabels (pcs : List PointCloud) : Finset (List Char) :=
  pcs.foldl (fun s pc => if pc.label = [] then s else insert (norm_name pc.label) s) ∅

/-- In-place mutation of the point cloud object with key `k`. -/
def updatePc (pcs : List PointCloud) (k : Nat) (f : PointCloud → PointCloud) :
    List PointCloud :=
  pcs.map (fun p => if p.key = k then f p else p)

def findPc (pcs : List PointCloud) (k : Nat) : Option PointCloud :=
  pcs.find? (fun p => decide (p.key = k))

/-- The error Metashape's `Matrix.inv()` raises on a singular matrix (the
spec's InvalidTransform error); `replace_tls.py` does not catch it. -/
def invalidTransformMsg : List Char := strL "InvalidTransform: singular matrix"

def noDocMsg : List Char := strL "No active Metashape document/chunk found."

def noFormatMsg : List Char :=
  strL "PointCloudFormatE57 was not found in this Metashape installation."

/-- Lines 367-378: the label assignment and group inheritance performed on
a newly imported asset before its effective transform is examined. -/
def relabelAndGroup (src : PointCloud) (base : List Char) (idx : Nat)
    (st : RState) (nk : Nat) : RState :=
  let desired :=
    if idx = 1 then base ++ strL "_new" else base ++ strL "_new_" ++ pad2 idx
  let new_label := make_unique_label desired st.labels
  let pcs1 := updatePc st.pcs nk (fun p => { p with label := new_label })
  let labels1 := insert (norm_name new_label) st.labels
  let pcs2 :=
    match src.group with
    | some g => updatePc pcs1 nk (fun p => { p with group := some g })
    | none => pcs1
  { st with pcs := pcs2, labels := labels1 }

/-- Lines 365-421: handle one newly imported point cloud asset (key `nk`,
1-based position `idx`): assign a unique label, inherit the source's group,
compute the raw effective transform, solve and apply the delta (the
inversion raises on a singular effective transform, uncaught), copy the
enabled flag, and transfer masks. -/
def processOneNewPc (src : PointCloud) (T_src_eff : Mat4) (base : List Char)
    (idx : Nat) (st : RState) (nk : Nat) : RState × Option (List Char) :=
  let st1 := relabelAndGroup src base idx st nk
  match findPc st1.pcs nk with
  | none => (st1, none)
  | some new_pc =>
    match effective_T new_pc with
    | none => (st1, none)
    | some T_new0_eff =>
      if T_new0_eff.det = 0 then
        (st1, some invalidTransformMsg)
      else
        let delta := computeDelta T_src_eff T_new0_eff
        let pcs3 := updatePc st1.pcs nk (fun p => apply_delta_to_pc_transform p delta)
        let pcs4 := updatePc pcs3 nk (fun p => { p with enabled := src.enabled })
        let st2 : RState := { st1 with pcs := pcs4 }
        match findPc st2.pcs nk with
        | none => (st2, none)
        | some new_pc2 =>
          let m := transfer_masks_from_src_to_new ⟨st2.cams, st2.nextOid⟩ src new_pc2
          ({ st2 with cams := m.cams, nextOid := m.nextOid }, none)

def processNewPcs (src : PointCloud) (T_src_eff : Mat4) (base : List Char) :
    Nat → RState → List Nat → RState × Option (List Char)
  | _, st, [] => (st, none)
  | idx, st, nk :: rest =>
    match processOneNewPc src T_src_eff base idx st nk with
    | (st1, some msg) => (st1, some msg)
    | (st1, none) => processNewPcs src T_src_eff base (idx + 1) st1 rest

/-- Lines 320-423: handle one discovered file: match by normalized base name,
skip when unmatched or the matched source scan has no (effective) transform,
invoke the import primitive, diff keys, and process every new asset. -/
def processFile (env : Env) (loaded : List (List Char × PointCloud))
    (st : RState) (fname : List Char) : RState × Option (List Char) :=
  let base := splitextBase fname
  let key := norm_name base
  match lookupName loaded key with
  | none => (st, none)
  | some srcRef =>
    let src := (findPc st.pcs srcRef.key).getD srcRef
    if src.transform = none then (st, none)
    else
      match effective_T src with
      | none => (st, none)
      | some T_src_eff =>
        let before_keys := st.pcs.map PointCloud.key
        let pcsAfter := st.pcs ++ env.importResult fname
        let st1 : RState := { st with pcs := pcsAfter }
        let new_keys :=
          (pcsAfter.filter (fun p => decide (p.key ∉ before_keys))).map PointCloud.key
        if new_keys = [] then (st1, none)
        else processNewPcs src T_src_eff base 1 st1 new_keys

def processFiles (env : Env) (loaded : List (List Char × PointCloud)) :
    RState → List (List Char) → RState × Option (List Char)
  | st, [] => (st, none)
  | st, f :: rest =>
    match processFile env loaded st f with
    | (st1, some msg) => (st1, some msg)
    | (st1, none) => processFiles env loaded st1 rest

/-- The full pipeline. The incoming `st0.labels` is irrelevant: the working
label set is built from the chunk at line 312 before any file is handled. -/
def runPipeline (env : Env) (st0 : RState) : RunResult :=
  if ¬ env.hasDocument then ⟨.raised noDocMsg, st0⟩
  else
    match env.folder with
    | none => ⟨.cancelled, st0⟩
    | some listing =>
      let e57_files := List.insertionSort (· ≤ ·) (listing.filter isE57Name)
      if e57_files = [] then ⟨.noFiles, st0⟩
      else
        let laser_scans := st0.pcs.filter (fun pc => pc.is_laser_scan)
        if laser_scans.isEmpty then ⟨.noScans, st0⟩
        else
          let loaded := buildLoadedByName laser_scans []
          let st1 : RState := { st0 with labels := initLabels st0.pcs }
          if ¬ env.formatAvailable then ⟨.raised noFormatMsg, st1⟩
          else
            match processFiles env loaded st1 e57_files with
            | (st, none) => ⟨.completed, st⟩
            | (st, some msg) => ⟨.raised msg, st⟩

/-! ## Claim theorems -/

/-- C1: for every pair of well-formed invertible 4x4 effective transforms
`R` (reference) and `I` (imported raw), the delta computed by the Pose Delta
Solver equals `R * inverse(I)`, and hence `delta * I = R` (exactly, which
subsumes the spec's floating tolerance). -/
theorem C1_delta_correctness (R I : Mat4) (h : I.det ≠ 0) :
    computeDelta R I = R * inv4 I ∧ computeDelta R I * I = R := by
  constructor
  · rfl
  · unfold computeDelta
    rw [mul_assoc, inv4_mul_self I h, mul_one]

theorem C1_delta_correctness_witness :
    (1 : Mat4).det ≠ 0 ∧ computeDelta 1 1 * 1 = 1 := by
  have hd : (1 : Mat4).det ≠ 0 := by
    rw [Matrix.det_one]
    exact one_ne_zero
  exact ⟨hd, (C1_delta_correctness 1 1 hd).2⟩

/-- C6: the effective transform is absent exactly when the entity has no
local transform; it is `group.transform * entity.transform` when an owning
group exposes a transform; otherwise it is the local transform. `effective_T`
is a pure total function (no side effects, no exception). -/
theorem C6_effective_transform (pc : PointCloud) :
    (pc.transform = none → effective_T pc = none) ∧
    (∀ T g gT, pc.transform = some T → pc.group = some g → g.transform = some gT →
      effective_T pc = some (gT * T)) ∧
    (∀ T, pc.transform = some T →
      (pc.group = none ∨ ∃ g, pc.group = some g ∧ g.transform = none) →
      effective_T pc = some T) := by
  refine ⟨?_, ?_, ?_⟩
  · intro h
    simp [effective_T, h]
  · intro T g gT hT hg hgT
    simp [effective_T, hT, hg, hgT]
  · intro T hT hG
    rcases hG with h | ⟨g, hg, hgt⟩
    · simp [effective_T, hT, h]
    · simp [effective_T, hT, hg, hgt]

theorem C6_effective_transform_witness :
    effective_T ⟨7, strL "s1", some 1, some ⟨some 1⟩, true, true⟩ =
      some ((1 : Mat4) * 1) :=
  (C6_effective_transform _).2.1 1 ⟨some 1⟩ 1 rfl rfl rfl

/-- The lowercased working set built from a collection of known labels, as
the pipeline keeps it (`existing_labels_lower`, line 312). -/
def labelsLowerOf (ls : List (List Char)) : Finset (List Char) :=
  (ls.map norm_name).toFinset

/-- C7: `_make_unique_label` returns the desired label unchanged when its
lowercase form is not in the working set, and otherwise the first candidate
`desired_NN` (`NN` counting 02, 03, ...) whose lowercase form is fresh; in
particular known labels `A, B` with desired `A` give `A_02`, and known
labels `A, A_02` with desired `A` give `A_03`. -/
theorem C7_label_uniqueness :
    (∀ d E, lowerL d ∉ E → make_unique_label d E = d) ∧
    (∀ d E, lowerL d ∈ E →
      ∃ n, 2 ≤ n ∧ make_unique_label d E = candidateLabel d n ∧
        lowerL (candidateLabel d n) ∉ E ∧
        ∀ j, 2 ≤ j → j < n → lowerL (candidateLabel d j) ∈ E) ∧
    make_unique_label (strL "A") (labelsLowerOf [strL "A", strL "B"]) = strL "A_02" ∧
    make_unique_label (strL "A") (labelsLowerOf [strL "A", strL "A_02"]) = strL "A_03" := by
  refine ⟨?_, ?_, ?_, ?_⟩
  · intro d E h
    exact make_unique_label_no_collision h
  · intro d E h
    refine ⟨2 + Nat.find (exists_fresh_candidate d E), by omega, ?_, ?_, ?_⟩
    · unfold make_unique_label
      rw [if_pos h]
    · exact Nat.find_spec (exists_fresh_candidate d E)
    · intro j h2 hj
      by_contra hnot
      have hmin := Nat.find_min (exists_fresh_candidate d E)
        (show j - 2 < Nat.find (exists_fresh_candidate d E) by omega)
      have hj2 : 2 + (j - 2) = j := by omega
      rw [hj2] at hmin
      exact hmin hnot
  · have := make_unique_label_collision (d := strL "A")
      (E := labelsLowerOf [strL "A", strL "B"]) (by decide) 2 (by omega)
      (by decide) (fun j h1 h2 => absurd h1 (by omega))
    rw [this]
    decide
  · have := make_unique_label_collision (d := strL "A")
      (E := labelsLowerOf [strL "A", strL "A_02"]) (by decide) 3 (by omega)
      (by decide)
      (fun j h1 h2 => by
        interval_cases j
        decide)
    rw [this]
    decide

theorem C7_label_uniqueness_witness :
    make_unique_label (strL "C") (labelsLowerOf [strL "A"]) = strL "C" :=
  C7_label_uniqueness.1 _ _ (by decide)

/-- C9: the suffix-appending loop of `_make_unique_label` terminates for
every desired label and every finite set of known lowercase labels: a fresh
candidate index exists (so `Nat.find` is justified), and on a collision the
function indeed returns a candidate whose lowercase form is outside the
set. -/
theorem C9_label_loop_terminates (d : List Char) (E : Finset (List Char)) :
    (∃ n, 2 ≤ n ∧ lowerL (candidateLabel d n) ∉ E) ∧
    (lowerL d ∈ E →
      ∃ m, 2 ≤ m ∧ make_unique_label d E = candidateLabel d m ∧
        lowerL (candidateLabel d m) ∉ E) := by
  constructor
  · exact ⟨2 + Nat.find (exists_fresh_candidate d E), by omega,
      Nat.find_spec (exists_fresh_candidate d E)⟩
  · intro h
    refine ⟨2 + Nat.find (exists_fresh_candidate d E), by omega, ?_,
      Nat.find_spec (exists_fresh_candidate d E)⟩
    unfold make_unique_label
    rw [if_pos h]

theorem C9_label_loop_terminates_witness :
    ∃ m, 2 ≤ m ∧
      make_unique_label (strL "A") (labelsLowerOf [strL "A"]) =
        candidateLabel (strL "A") m ∧
      lowerL (candidateLabel (strL "A") m) ∉ labelsLowerOf [strL "A"] :=
  (C9_label_loop_terminates (strL "A") (labelsLowerOf [strL "A"])).2 (by decide)

/-! ### C2: the grouped delta application -/

/-- Group transform of the C2 scenario (scale 2 along the first axis). -/
def gTex : Mat4 := !![2,0,0,0; 0,1,0,0; 0,0,1,0; 0,0,0,1]

/-- Raw local transform of the imported scan in the C2 scenario (a shear). -/
def Tnex : Mat4 := !![1,1,0,0; 0,1,0,0; 0,0,1,0; 0,0,0,1]

/-- Reference effective transform of the C2 scenario. -/
def Rex : Mat4 := gTex

/-- Raw imported effective transform `gTex * Tnex` of the C2 scenario. -/
def Iex : Mat4 := !![2,2,0,0; 0,1,0,0; 0,0,1,0; 0,0,0,1]

/-- Explicit inverse of `Iex`. -/
def Bex : Mat4 := !![1/2,-1,0,0; 0,1,0,0; 0,0,1,0; 0,0,0,1]

/-- The effective transform the code actually produces in the C2 scenario. -/
def Fex : Mat4 := !![2,-2,0,0; 0,1,0,0; 0,0,1,0; 0,0,0,1]

/-- Intermediate product `Rex * Bex` (the delta of the C2 scenario). -/
def D1ex : Mat4 := !![1,-2,0,0; 0,1,0,0; 0,0,1,0; 0,0,0,1]

/-- Intermediate product `D1ex * Tnex` (the final local transform). -/
def D2ex : Mat4 := !![1,-1,0,0; 0,1,0,0; 0,0,1,0; 0,0,0,1]

/-- The reference station of the C2 scenario: local transform `1`, owning
group with transform `gTex`, so its effective transform is `gTex`. -/
def srcEx : PointCloud := ⟨1, strL "s1", some 1, some ⟨some gTex⟩, true, true⟩

/-- The imported station of the C2 scenario, already placed in the same
group as the reference (as the pipeline does at lines 374-378). -/
def newEx : PointCloud := ⟨2, strL "s1_new", some Tnex, some ⟨some gTex⟩, true, true⟩

/-- C2 fails on the code: for the concrete grouped scenario `srcEx`/`newEx`
the raw imported effective transform is invertible, yet applying the
computed delta to the local transform (`local := delta * local`, exactly as
`_apply_delta_to_pc_transform` does) and recomposing through the unchanged
group yields an effective pose different from the reference `Rex`. The
script's own docstring promises the imported scan then matches the
reference pose; it does not when the group transform fails to commute with
the delta. -/
theorem C2_group_application_fails :
    effective_T srcEx = some Rex ∧
    effective_T newEx = some Iex ∧
    Iex.det ≠ 0 ∧
    effective_T (apply_delta_to_pc_transform newEx (computeDelta Rex Iex)) ≠
      some Rex := by
  have hIB : Iex * Bex = 1 := by
    ext i j
    fin_cases i <;> fin_cases j <;>
      simp [Iex, Bex, Matrix.mul_apply, Fin.sum_univ_four, Matrix.one_apply,
        Matrix.vecHead, Matrix.vecTail] <;> norm_num
  have hGT : gTex * Tnex = Iex := by
    ext i j
    fin_cases i <;> fin_cases j <;>
      simp [gTex, Tnex, Iex, Matrix.mul_apply, Fin.sum_univ_four,
        Matrix.vecHead, Matrix.vecTail] <;> norm_num
  have hD1 : Rex * Bex = D1ex := by
    ext i j
    fin_cases i <;> fin_cases j <;>
      simp [Rex, gTex, Bex, D1ex, Matrix.mul_apply, Fin.sum_univ_four,
        Matrix.vecHead, Matrix.vecTail] <;> norm_num
  have hD2 : D1ex * Tnex = D2ex := by
    ext i j
    fin_cases i <;> fin_cases j <;>
      simp [D1ex, Tnex, D2ex, Matrix.mul_apply, Fin.sum_univ_four,
        Matrix.vecHead, Matrix.vecTail] <;> norm_num
  have hF : gTex * (Rex * Bex * Tnex) = Fex := by
    rw [hD1, hD2]
    ext i j
    fin_cases i <;> fin_cases j <;>
      simp [gTex, D2ex, Fex, Matrix.mul_apply, Fin.sum_univ_four,
        Matrix.vecHead, Matrix.vecTail] <;> norm_num
  have hFne : Fex ≠ Rex := by
    intro h
    have h01 : Fex 0 1 = Rex 0 1 := by rw [h]
    simp [Fex, Rex, gTex] at h01
  refine ⟨?_, ?_, det_ne_zero_of_mul_eq_one hIB, ?_⟩
  · show effective_T srcEx = some Rex
    simp [effective_T, srcEx, Rex]
  · show effective_T newEx = some Iex
    simp [effective_T, newEx, hGT]
  · show effective_T (apply_delta_to_pc_transform newEx (computeDelta Rex Iex)) ≠
      some Rex
    have hdelta : computeDelta Rex Iex = Rex * Bex := by
      unfold computeDelta
      rw [inv4_eq hIB]
    have happ : apply_delta_to_pc_transform newEx (computeDelta Rex Iex) =
        { newEx with transform := some (Rex * Bex * Tnex) } := by
      rw [hdelta]
      rfl
    rw [happ]
    have heff : effective_T { newEx with transform := some (Rex * Bex * Tnex) } =
        some (gTex * (Rex * Bex * Tnex)) := by
      simp [effective_T, newEx]
    rw [heff, hF]
    intro hc
    exact hFne (Option.some.inj hc)

/-- With pairwise distinct camera identities, reading a member camera's mask
through the chunk state returns that camera's own mask. -/
theorem getMaskById_of_mem_nodup {cams : List Camera} {c : Camera}
    (hn : (cams.map Camera.id).Nodup) (hc : c ∈ cams) :
    getMaskById cams c.id = c.mask := by
  induction cams with
  | nil => cases hc
  | cons a l ih =>
    unfold getMaskById
    rw [List.find?_cons]
    by_cases hid : a.id = c.id
    · have : a = c :=
        List.inj_on_of_nodup_map hn (List.mem_cons_self a l) hc hid
      simp [hid, this]
    · have hbeq : (a.id == c.id) = false := by
        simp [hid]
      rw [hbeq]
      have hcl : c ∈ l := by
        rcases List.mem_cons.mp hc with rfl | h
        · exact absurd rfl hid
        · exact h
      have hnl : (l.map Camera.id).Nodup := by
        simp only [List.map_cons, List.nodup_cons] at hn
        exact hn.2
      exact ih hnl hcl

/-- C4: the camera pairing is the index-aligned zip of the two association
lists sorted by the composite key `(label, key)`, truncated to the shorter
length, and — when the associated cameras carry pairwise distinct
`(label, key)` keys, as distinct camera assets in a chunk do — it is a pure
function of the collections' content, invariant under any permutation of
the chunk's camera list. -/
theorem C4_pairing_determinism (cams cams' : List Camera)
    (src_pc new_pc : PointCloud) (hp : cams.Perm cams')
    (hns : ((cams.filter (fun c => camera_belongs_to_pointcloud c src_pc)).map camKey).Nodup)
    (hnn : ((cams.filter (fun c => camera_belongs_to_pointcloud c new_pc)).map camKey).Nodup) :
    ((attached_cameras cams src_pc).Sorted camLe ∧
      (attached_cameras cams src_pc).Perm
        (cams.filter (fun c => camera_belongs_to_pointcloud c src_pc)) ∧
      (attached_cameras cams new_pc).Sorted camLe ∧
      (attached_cameras cams new_pc).Perm
        (cams.filter (fun c => camera_belongs_to_pointcloud c new_pc))) ∧
    ((attached_cameras cams src_pc).zip (attached_cameras cams new_pc)).length =
      min (attached_cameras cams src_pc).length (attached_cameras cams new_pc).length ∧
    (∀ i (h1 : i < (attached_cameras cams src_pc).length)
        (h2 : i < (attached_cameras cams new_pc).length)
        (h3 : i < ((attached_cameras cams src_pc).zip
          (attached_cameras cams new_pc)).length),
      ((attached_cameras cams src_pc).zip (attached_cameras cams new_pc)).get ⟨i, h3⟩ =
        ((attached_cameras cams src_pc).get ⟨i, h1⟩,
          (attached_cameras cams new_pc).get ⟨i, h2⟩)) ∧
    (attached_cameras cams' src_pc).zip (attached_cameras cams' new_pc) =
      (attached_cameras cams src_pc).zip (attached_cameras cams new_pc) := by
  refine ⟨⟨attached_cameras_sorted _ _, attached_cameras_perm_filter _ _,
    attached_cameras_sorted _ _, attached_cameras_perm_filter _ _⟩, ?_, ?_, ?_⟩
  · exact List.length_zip _ _
  · intro i h1 h2 h3
    simp [List.get_eq_getElem, List.getElem_zip]
  · rw [← attached_cameras_perm_invariant src_pc hp hns,
      ← attached_cameras_perm_invariant new_pc hp hnn]

/-- Concrete source scan for camera-level witnesses (key 10). -/
def srcWpc : PointCloud := ⟨10, strL "src", none, none, true, true⟩

/-- Concrete target scan for camera-level witnesses (key 20). -/
def newWpc : PointCloud := ⟨20, strL "new", none, none, true, true⟩

def cw1 : Camera := ⟨1, strL "a", 1, some ⟨0, 5⟩, some 10, none⟩
def cw2 : Camera := ⟨2, strL "b", 2, none, some 10, none⟩
def cw3 : Camera := ⟨3, strL "a", 3, some ⟨1, 9⟩, some 20, none⟩
def cw4 : Camera := ⟨4, strL "b", 4, none, some 20, none⟩

def camsW : List Camera := [cw1, cw2, cw3, cw4]

def camsWperm : List Camera := [cw4, cw2, cw3, cw1]

theorem C4_pairing_determinism_witness :
    (attached_cameras camsWperm srcWpc).zip (attached_cameras camsWperm newWpc) =
      (attached_cameras camsW srcWpc).zip (attached_cameras camsW newWpc) :=
  (C4_pairing_determinism camsW camsWperm srcWpc newWpc (by decide) (by decide)
    (by decide)).2.2.2

/-- C5: `_transfer_masks_from_src_to_new` first clears every target-attached
camera's mask unconditionally; then, over the index-aligned pairing, a
present source mask is copied as a deep copy (same content, a fresh object
identity different from the source mask's), while an absent source mask is
silently skipped, leaving the paired target's mask absent; every unpaired
target camera (in particular all of them when either side is empty) ends
with no mask. Hypotheses: camera objects have pairwise distinct identities,
the source and target associated sets are disjoint, and mask identities are
below the allocator counter. -/
theorem C5_mask_transfer_correctness (st : MState) (src_pc new_pc : PointCloud)
    (hnodupAll : (st.cams.map Camera.id).Nodup)
    (hdisj : ∀ s ∈ attached_cameras st.cams src_pc,
      ∀ t ∈ attached_cameras st.cams new_pc, s.id ≠ t.id)
    (hoid : ∀ c ∈ st.cams, ∀ m, c.mask = some m → m.oid < st.nextOid) :
    (∀ p ∈ (attached_cameras st.cams src_pc).zip (attached_cameras st.cams new_pc),
      (∀ m, p.1.mask = some m →
        ∃ k, st.nextOid ≤ k ∧ m.oid ≠ k ∧
          getMaskById (transfer_masks_from_src_to_new st src_pc new_pc).cams p.2.id =
            some ⟨k, m.content⟩) ∧
      (p.1.mask = none →
        getMaskById (transfer_masks_from_src_to_new st src_pc new_pc).cams p.2.id =
          none)) ∧
    (∀ t ∈ attached_cameras st.cams new_pc,
      t ∉ ((attached_cameras st.cams src_pc).zip
        (attached_cameras st.cams new_pc)).map Prod.snd →
      getMaskById (transfer_masks_from_src_to_new st src_pc new_pc).cams t.id =
        none) := by
  have hmemS : ∀ c ∈ attached_cameras st.cams src_pc, c ∈ st.cams :=
    fun c hc => (mem_attached_cameras.mp hc).1
  have hmemN : ∀ c ∈ attached_cameras st.cams new_pc, c ∈ st.cams :=
    fun c hc => (mem_attached_cameras.mp hc).1
  have hnodupN : ((attached_cameras st.cams new_pc).map Camera.id).Nodup := by
    have hfil : ((st.cams.filter
        (fun c => camera_belongs_to_pointcloud c new_pc)).map Camera.id).Nodup :=
      ((List.filter_sublist st.cams).map Camera.id).nodup hnodupAll
    exact (((attached_cameras_perm_filter st.cams new_pc).map Camera.id).nodup_iff).mpr hfil
  set S := attached_cameras st.cams src_pc with hSdef
  set N := attached_cameras st.cams new_pc with hNdef
  set cleared := N.foldl (fun acc c => setMaskById acc c.id none) st.cams with hcdef
  have htrans : transfer_masks_from_src_to_new st src_pc new_pc =
      if S.isEmpty || N.isEmpty then ⟨cleared, st.nextOid⟩
      else (S.zip N).foldl copyStep ⟨cleared, st.nextOid⟩ := rfl
  by_cases hempty : (S.isEmpty || N.isEmpty) = true
  · rw [htrans, if_pos hempty]
    constructor
    · intro p hp
      have : S = [] ∨ N = [] := by
        rcases Bool.or_eq_true_iff.mp hempty with h | h
        · exact Or.inl (List.isEmpty_iff.mp h)
        · exact Or.inr (List.isEmpty_iff.mp h)
      rcases this with h | h
      · rw [h] at hp
        simp at hp
      · rw [h] at hp
        simp at hp
    · intro t ht _
      exact getMaskById_clearFold_mem N st.cams t.id
        (List.mem_map_of_mem Camera.id (hmemN t ht))
        (List.mem_map_of_mem Camera.id ht)
  · rw [htrans, if_neg hempty]
    have hw : ((S.zip N).map (fun p => p.2.id)).Nodup := by
      have heq : (S.zip N).map (fun p => p.2.id) =
          ((S.zip N).map Prod.snd).map Camera.id := by
        rw [List.map_map]
        rfl
      rw [heq]
      exact ((zip_map_snd_sublist S N).map Camera.id).nodup hnodupN
    have hrw : ∀ p ∈ S.zip N, ∀ q ∈ S.zip N, p.1.id ≠ q.2.id :=
      fun p hp q hq =>
        hdisj p.1 (List.of_mem_zip hp).1 q.2 (List.of_mem_zip hq).2
    have hids : ∀ p ∈ S.zip N,
        p.2.id ∈ (MState.mk cleared st.nextOid).cams.map Camera.id := by
      intro p hp
      show p.2.id ∈ cleared.map Camera.id
      rw [hcdef, clearFold_ids]
      exact List.mem_map_of_mem Camera.id (hmemN p.2 (List.of_mem_zip hp).2)
    have hfold := copyFold_pair_spec (S.zip N) ⟨cleared, st.nextOid⟩ hw hrw hids
    constructor
    · intro p hp
      have hfp := hfold p hp
      have hs_not_new : p.1.id ∉ N.map Camera.id := by
        intro hmem
        obtain ⟨t, htN, htid⟩ := List.mem_map.mp hmem
        exact hdisj p.1 (List.of_mem_zip hp).1 t htN htid.symm
      constructor
      · intro m hm
        have hread : getMaskById (MState.mk cleared st.nextOid).cams p.1.id = some m := by
          show getMaskById cleared p.1.id = some m
          rw [hcdef, getMaskById_clearFold_not_mem N st.cams p.1.id hs_not_new,
            getMaskById_of_mem_nodup hnodupAll (hmemS p.1 (List.of_mem_zip hp).1), hm]
        obtain ⟨k, hk, hres⟩ := hfp.1 m hread
        have hk' : st.nextOid ≤ k := hk
        refine ⟨k, hk', ?_, hres⟩
        have hlt : m.oid < st.nextOid :=
          hoid p.1 (hmemS p.1 (List.of_mem_zip hp).1) m hm
        omega
      · intro hm
        have hread : getMaskById (MState.mk cleared st.nextOid).cams p.1.id = none := by
          show getMaskById cleared p.1.id = none
          rw [hcdef, getMaskById_clearFold_not_mem N st.cams p.1.id hs_not_new,
            getMaskById_of_mem_nodup hnodupAll (hmemS p.1 (List.of_mem_zip hp).1), hm]
        rw [hfp.2 hread]
        exact getMaskById_clearFold_mem N st.cams p.2.id
          (List.mem_map_of_mem Camera.id (hmemN p.2 (List.of_mem_zip hp).2))
          (List.mem_map_of_mem Camera.id (List.of_mem_zip hp).2)
    · intro t ht hnotsnd
      have hnotw : t.id ∉ (S.zip N).map (fun p => p.2.id) := by
        intro hmem
        obtain ⟨p, hp, hpid⟩ := List.mem_map.mp hmem
        have hp2 : p.2 = t :=
          List.inj_on_of_nodup_map hnodupN (List.of_mem_zip hp).2 ht hpid
        exact hnotsnd (List.mem_map.mpr ⟨p, hp, hp2⟩)
      rw [copyFold_not_written _ _ _ hnotw]
      exact getMaskById_clearFold_mem N st.cams t.id
        (List.mem_map_of_mem Camera.id (hmemN t ht))
        (List.mem_map_of_mem Camera.id ht)

/-- Concrete chunk camera state for transfer witnesses: source cameras
`cw1` (mask present) and `cw2` (mask absent), target cameras `cw3` (stale
mask) and `cw4` (no mask). -/
def mstW : MState := ⟨camsW, 2⟩

theorem C5_mask_transfer_correctness_witness :
    (∃ k, mstW.nextOid ≤ k ∧ (Mask.mk 0 5).oid ≠ k ∧
      getMaskById (transfer_masks_from_src_to_new mstW srcWpc newWpc).cams cw3.id =
        some ⟨k, (Mask.mk 0 5).content⟩) ∧
    getMaskById (transfer_masks_from_src_to_new mstW srcWpc newWpc).cams cw4.id =
      none := by
  have hoidW : ∀ c ∈ mstW.cams, ∀ m, c.mask = some m → m.oid < mstW.nextOid := by
    intro c hc m hm
    obtain ⟨moid, mcontent⟩ := m
    show moid < 2
    fin_cases hc <;> simp [cw1, cw2, cw3, cw4] at hm <;> omega
  have h := C5_mask_transfer_correctness mstW srcWpc newWpc (by decide) (by decide) hoidW
  exact ⟨(h.1 (cw1, cw3) (by decide)).1 ⟨0, 5⟩ rfl,
    (h.1 (cw2, cw4) (by decide)).2 rfl⟩

/-- C10: the mask transfer writes only cameras associated with the target
entity: any camera identity outside the target's attached list keeps its
mask; in particular, when the source and target attached sets are disjoint,
every source camera's mask is unchanged. -/
theorem C10_transfer_frame (st : MState) (src_pc new_pc : PointCloud) :
    (∀ x, x ∉ (attached_cameras st.cams new_pc).map Camera.id →
      getMaskById (transfer_masks_from_src_to_new st src_pc new_pc).cams x =
        getMaskById st.cams x) ∧
    ((∀ s ∈ attached_cameras st.cams src_pc,
        ∀ t ∈ attached_cameras st.cams new_pc, s.id ≠ t.id) →
      ∀ s ∈ attached_cameras st.cams src_pc,
        getMaskById (transfer_masks_from_src_to_new st src_pc new_pc).cams s.id =
          getMaskById st.cams s.id) := by
  set S := attached_cameras st.cams src_pc with hSdef
  set N := attached_cameras st.cams new_pc with hNdef
  set cleared := N.foldl (fun acc c => setMaskById acc c.id none) st.cams with hcdef
  have htrans : transfer_masks_from_src_to_new st src_pc new_pc =
      if S.isEmpty || N.isEmpty then ⟨cleared, st.nextOid⟩
      else (S.zip N).foldl copyStep ⟨cleared, st.nextOid⟩ := rfl
  have main : ∀ x, x ∉ N.map Camera.id →
      getMaskById (transfer_masks_from_src_to_new st src_pc new_pc).cams x =
        getMaskById st.cams x := by
    intro x hx
    by_cases hempty : (S.isEmpty || N.isEmpty) = true
    · rw [htrans, if_pos hempty]
      exact getMaskById_clearFold_not_mem N st.cams x hx
    · rw [htrans, if_neg hempty]
      have hnotw : x ∉ (S.zip N).map (fun p => p.2.id) := by
        intro hmem
        obtain ⟨p, hp, hpid⟩ := List.mem_map.mp hmem
        exact hx (hpid ▸ List.mem_map_of_mem Camera.id (List.of_mem_zip hp).2)
      rw [copyFold_not_written _ _ _ hnotw]
      exact getMaskById_clearFold_not_mem N st.cams x hx
  refine ⟨main, ?_⟩
  intro hdisj s hs
  apply main
  intro hmem
  obtain ⟨t, htN, htid⟩ := List.mem_map.mp hmem
  exact hdisj s hs t htN htid.symm

theorem C10_transfer_frame_witness :
    getMaskById (transfer_masks_from_src_to_new mstW srcWpc newWpc).cams cw1.id =
      getMaskById mstW.cams cw1.id :=
  (C10_transfer_frame mstW srcWpc newWpc).2 (by decide) cw1 (by decide)

/-! ### C3: a singular imported effective transform -/

/-- Reference laser scan `s1` with identity local transform and no group. -/
def pcS1 : PointCloud := ⟨1, strL "s1", some 1, none, true, true⟩

/-- The asset the host import primitive yields for `s1.e57`: its raw
transform is the zero matrix, so its effective transform is singular. -/
def pcBad : PointCloud := ⟨100, strL "imported", some 0, none, true, false⟩

/-- The C3 environment: one file `s1.e57` whose import yields `pcBad`. -/
def envC3 : Env := ⟨true, some [strL "s1.e57"], true, fun _ => [pcBad]⟩

/-- The C3 initial chunk: just the reference scan, no cameras. -/
def stC3 : RState := ⟨[pcS1], [], ∅, 0⟩

/-- State when the per-file loop starts: the label working set is built. -/
def stA : RState := ⟨[pcS1], [], insert (norm_name (strL "s1")) ∅, 0⟩

/-- State after the import call appended `pcBad`. -/
def stB : RState := ⟨[pcS1, pcBad], [], insert (norm_name (strL "s1")) ∅, 0⟩

/-- The imported asset after the pipeline relabelled it. -/
def pcBadLabeled : PointCloud := { pcBad with label := strL "s1_new" }

/-- State at the moment the singular inversion raises: the imported entity
is already present, relabelled, and the label set extended. -/
def stMid : RState := ⟨[pcS1, pcBadLabeled], [],
  insert (norm_name (strL "s1_new")) (insert (norm_name (strL "s1")) ∅), 0⟩

/-- The `loaded_by_name` map of the C3 scenario. -/
def loadedC3 : List (List Char × PointCloud) := [(strL "s1", pcS1)]

/-- The else-branch of `processOneNewPc` at the C3 input (never taken; it is
spelled out only so the branch on the singular test can be isolated). -/
def elseC3 : RState × Option (List Char) :=
  let delta := computeDelta (1 : Mat4) (0 : Mat4)
  let pcs3 := updatePc stMid.pcs 100 (fun p => apply_delta_to_pc_transform p delta)
  let pcs4 := updatePc pcs3 100 (fun p => { p with enabled := pcS1.enabled })
  let st2 : RState := { stMid with pcs := pcs4 }
  match findPc st2.pcs 100 with
  | none => (st2, none)
  | some new_pc2 =>
    let m := transfer_masks_from_src_to_new ⟨st2.cams, st2.nextOid⟩ pcS1 new_pc2
    ({ st2 with cams := m.cams, nextOid := m.nextOid }, none)

theorem processOneNewPc_C3 :
    processOneNewPc pcS1 1 (strL "s1") 1 stB 100 =
      (stMid, some invalidTransformMsg) := by
  have hmid : processOneNewPc pcS1 1 (strL "s1") 1 stB 100 =
      (if (0 : Mat4).det = 0 then (stMid, some invalidTransformMsg)
       else elseC3) := rfl
  rw [hmid, if_pos (Matrix.det_zero ⟨0⟩)]

theorem runPipeline_C3 :
    runPipeline envC3 stC3 = ⟨.raised invalidTransformMsg, stMid⟩ := by
  have h2 : processNewPcs pcS1 1 (strL "s1") 1 stB [100] =
      (stMid, some invalidTransformMsg) := by
    show (match processOneNewPc pcS1 1 (strL "s1") 1 stB 100 with
          | (st1, some msg) => (st1, some msg)
          | (st1, none) => processNewPcs pcS1 1 (strL "s1") 2 st1 []) =
        (stMid, some invalidTransformMsg)
    rw [processOneNewPc_C3]
  have hfile : processFile envC3 loadedC3 stA (strL "s1.e57") =
      (stMid, some invalidTransformMsg) := by
    show processNewPcs pcS1 1 (strL "s1") 1 stB [100] =
      (stMid, some invalidTransformMsg)
    exact h2
  have h3 : processFiles envC3 loadedC3 stA [strL "s1.e57"] =
      (stMid, some invalidTransformMsg) := by
    show (match processFile envC3 loadedC3 stA (strL "s1.e57") with
          | (st1, some msg) => (st1, some msg)
          | (st1, none) => processFiles envC3 loadedC3 st1 []) =
        (stMid, some invalidTransformMsg)
    rw [hfile]
  show (match processFiles envC3 loadedC3 stA [strL "s1.e57"] with
        | (st, none) => RunResult.mk .completed st
        | (st, some msg) => RunResult.mk (.raised msg) st) =
      RunResult.mk (.raised invalidTransformMsg) stMid
  rw [h3]

/-- C3 fails on the code: at the concrete C3 input (one matching file
whose import yields an asset with a singular effective transform) the run ends
with status `raised InvalidTransform` — the error is NOT caught, so the
pipeline does not continue with the next file — and the entity has already
been mutated for that file: it sits in the final chunk relabelled
`s1_new`. -/
theorem C3_counterexample :
    (runPipeline envC3 stC3).status = .raised invalidTransformMsg ∧
    (runPipeline envC3 stC3).status ≠ .completed ∧
    findPc (runPipeline envC3 stC3).state.pcs 100 = some pcBadLabeled ∧
    pcBadLabeled.label ≠ pcBad.label := by
  rw [runPipeline_C3]
  refine ⟨rfl, by simp, rfl, by decide⟩

/-- C3 amended: an imported asset whose raw effective transform is singular
makes the (uncaught) inversion error abort the per-asset processing right
after the label assignment and group inheritance already mutated the chunk,
and a raised error stops the file loop at once: no later file is
processed. -/
theorem C3_singular_aborts_run :
    (∀ src Ts base idx st nk pc' T',
      findPc (relabelAndGroup src base idx st nk).pcs nk = some pc' →
      effective_T pc' = some T' → T'.det = 0 →
      processOneNewPc src Ts base idx st nk =
        (relabelAndGroup src base idx st nk, some invalidTransformMsg)) ∧
    (∀ env loaded st f rest st' msg,
      processFile env loaded st f = (st', some msg) →
      processFiles env loaded st (f :: rest) = (st', some msg)) := by
  constructor
  · intro src Ts base idx st nk pc' T' hfind heff hdet
    simp only [processOneNewPc, hfind, heff]
    rw [if_pos hdet]
  · intro env loaded st f rest st' msg hfile
    unfold processFiles
    rw [hfile]

theorem C3_singular_aborts_run_witness :
    processOneNewPc pcS1 1 (strL "s1") 1 stB 100 =
      (relabelAndGroup pcS1 (strL "s1") 1 stB 100, some invalidTransformMsg) :=
  C3_singular_aborts_run.1 pcS1 1 (strL "s1") 1 stB 100 pcBadLabeled 0 rfl rfl
    (Matrix.det_zero ⟨0⟩)

/-- C8 amended: the two conditions the code checks by raising (`no active
document/chunk`, `format enum unavailable`) abort the run with an exception
and an untouched chunk; the other two pre-flight conditions (`no input
files`, `no reference laser scans`) abort with an early normal return, not
a raise — in all four cases nothing is processed: no file imported, no
entity mutated. -/
theorem C8_preflight_aborts (env : Env) (st0 : RState) :
    (env.hasDocument = false →
      runPipeline env st0 = ⟨.raised noDocMsg, st0⟩) ∧
    (∀ listing, env.hasDocument = true → env.folder = some listing →
      listing.filter isE57Name = [] →
      runPipeline env st0 = ⟨.noFiles, st0⟩) ∧
    (∀ listing, env.hasDocument = true → env.folder = some listing →
      listing.filter isE57Name ≠ [] →
      st0.pcs.filter (fun pc => pc.is_laser_scan) = [] →
      runPipeline env st0 = ⟨.noScans, st0⟩) ∧
    (∀ listing, env.hasDocument = true → env.folder = some listing →
      listing.filter isE57Name ≠ [] →
      st0.pcs.filter (fun pc => pc.is_laser_scan) ≠ [] →
      env.formatAvailable = false →
      runPipeline env st0 =
        ⟨.raised noFormatMsg, { st0 with labels := initLabels st0.pcs }⟩) := by
  have hsort_ne : ∀ l : List (List Char), l ≠ [] →
      List.insertionSort (α := List Char) (· ≤ ·) l ≠ [] := by
    intro l hl h
    have hperm := List.perm_insertionSort (α := List Char) (· ≤ ·) l
    rw [h] at hperm
    exact hl (hperm.symm.eq_nil)
  refine ⟨?_, ?_, ?_, ?_⟩
  · intro h
    simp only [runPipeline, h]
    rfl
  · intro listing hdoc hfold hfilter
    simp only [runPipeline, hdoc, hfold, hfilter]
    rfl
  · intro listing hdoc hfold hfne hlaser
    simp only [runPipeline, hdoc, hfold]
    rw [if_neg (by simp)]
    rw [if_neg (hsort_ne _ hfne)]
    rw [hlaser]
    rfl
  · intro listing hdoc hfold hfne hlne hfmt
    simp only [runPipeline, hdoc, hfold, hfmt]
    rw [if_neg (by simp)]
    rw [if_neg (hsort_ne _ hfne)]
    have hempty : (st0.pcs.filter (fun pc => pc.is_laser_scan)).isEmpty = false := by
      rw [List.isEmpty_eq_false_iff_exists_mem]
      rcases List.exists_mem_of_ne_nil _ hlne with ⟨x, hx⟩
      exact ⟨x, hx⟩
    rw [hempty]
    simp only [Bool.false_eq_true, if_false]
    rw [if_pos (by simp)]

/-- The C8 environment: a selected folder whose listing is empty. -/
def envC8 : Env := ⟨true, some [], true, fun _ => []⟩

/-- The C8 initial chunk: a laser scan is present, only input files miss. -/
def stC8 : RState := ⟨[pcS1], [], ∅, 0⟩

/-- C8 fails on the code: with no input files found, the pipeline does not
raise — it returns normally with status `noFiles` (and an untouched chunk);
`noFiles` is not a `raised` status. -/
theorem C8_counterexample :
    runPipeline envC8 stC8 = ⟨.noFiles, stC8⟩ ∧
    ∀ msg, (RunStatus.noFiles ≠ RunStatus.raised msg) := by
  constructor
  · rfl
  · intro msg h
    cases h

theorem C8_preflight_aborts_witness :
    runPipeline ⟨false, none, true, fun _ => []⟩ stC8 =
      ⟨.raised noDocMsg, stC8⟩ ∧
    runPipeline ⟨true, some [strL "x.e57"], false, fun _ => []⟩ stC8 =
      ⟨.raised noFormatMsg, { stC8 with labels := initLabels stC8.pcs }⟩ :=
  ⟨(C8_preflight_aborts ⟨false, none, true, fun _ => []⟩ stC8).1 rfl,
    (C8_preflight_aborts ⟨true, some [strL "x.e57"], false, fun _ => []⟩ stC8).2.2.2
      [strL "x.e57"] rfl rfl (by decide)
      (by
        intro h
        have h2 : ([pcS1] : List PointCloud) = [] := h
        cases h2) rfl⟩
